import Mathlib

/-!
Verification development for the DGL message-passing tutorial notebook
(`basics/6_message_passing`).  The notebook defines two `SAGEConv` modules
whose `forward` methods call the library primitive `g.update_all`, and a
user-defined message function `u_mul_e_udf`.

The embedding below models tensors as lists of rows of rationals, graph
feature storage (`srcdata`, `dstdata`, `edata`) as association lists, and
fallible library calls with `Except`.  The bodies of the two `forward`
methods and of `u_mul_e_udf` are translated from the notebook source.
The library primitives themselves (`update_all`, `fn.copy_u`, `fn.u_mul_e`,
`fn.mean`, `local_scope`) are external DGL code with no source in this
repository; their definitions are modelled from the spec, as each of their
doc comments states.
-/

/-- A feature vector: one row of a tensor. -/
abbrev Vec := List ℚ

/-- A feature tensor: a list of rows, indexed by node id or edge id. -/
abbrev Tensor := List Vec

/-- A directed graph as exposed by the library: source/destination node
counts and a list of directed edges `(src, dst)`. -/
structure Graph where
  numSrcNodes : Nat
  numDstNodes : Nat
  edges : List (Nat × Nat)

/-- `g.number_of_dst_nodes()` from the notebook's second `forward`. -/
def Graph.number_of_dst_nodes (g : Graph) : Nat := g.numDstNodes

/-- Per-graph feature storage: a map from feature name to tensor. -/
abbrev FeatMap := List (String × Tensor)

def lookupFeat : FeatMap → String → Option Tensor
  | [], _ => none
  | (k', t) :: rest, k => if k' = k then some t else lookupFeat rest k

/-- Assignment `g.srcdata['h'] = h` style update: the new binding shadows
any earlier binding of the same key. -/
def setFeat (m : FeatMap) (k : String) (t : Tensor) : FeatMap :=
  (k, t) :: m

/-- The graph-attached feature data: `g.srcdata`, `g.dstdata`, `g.edata`. -/
structure GraphState where
  srcdata : FeatMap
  dstdata : FeatMap
  edata : FeatMap

/-- Errors raised by the external library: a missing feature key or an
out-of-range row index (malformed tensor shape / graph structure). -/
inductive LibError where
  | keyError (k : String)
  | indexError
deriving DecidableEq

/-- Reading a named feature tensor; raises like the library does when the
key is absent. -/
def getFeat (m : FeatMap) (k : String) : Except LibError Tensor :=
  match lookupFeat m k with
  | some t => .ok t
  | none => .error (.keyError k)

/-- Reading row `i` of a tensor; raises when the tensor has too few rows. -/
def getRow (t : Tensor) (i : Nat) : Except LibError Vec :=
  match t.get? i with
  | some v => .ok v
  | none => .error .indexError

/-- Elementwise product of two feature vectors (`*` on tensors). -/
def Vec.mul (a b : Vec) : Vec := List.zipWith (· * ·) a b

/-- The view a message function has of one edge: lookup of source-node
features (`edges.src`), edge features (`edges.data`) and destination-node
features (`edges.dst`). -/
structure EdgeView where
  src : String → Except LibError Vec
  data : String → Except LibError Vec
  dst : String → Except LibError Vec

/-- The edge view of edge number `i` with endpoints `e = (u, v)` over the
current graph state. -/
def edgeView (st : GraphState) (i : Nat) (e : Nat × Nat) : EdgeView where
  src := fun k =>
    match getFeat st.srcdata k with
    | .ok t => getRow t e.1
    | .error err => .error err
  data := fun k =>
    match getFeat st.edata k with
    | .ok t => getRow t i
    | .error err => .error err
  dst := fun k =>
    match getFeat st.dstdata k with
    | .ok t => getRow t e.2
    | .error err => .error err

/-- The dictionary a message function returns for one edge. -/
abbrev MsgDict := List (String × Vec)

def lookupMsg : MsgDict → String → Option Vec
  | [], _ => none
  | (k', v) :: rest, k => if k' = k then some v else lookupMsg rest k

def getMsg (d : MsgDict) (k : String) : Except LibError Vec :=
  match lookupMsg d k with
  | some v => .ok v
  | none => .error (.keyError k)

/-- Message functions appearing in the notebook: the built-ins
`fn.copy_u`, `fn.u_mul_e`, and a user-defined function. -/
inductive MsgExpr where
  | copy_u (u out : String)
  | u_mul_e (u e out : String)
  | udf (f : EdgeView → Except LibError MsgDict)

/-- Reduce functions appearing in the notebook: `fn.mean(msg, out)`. -/
inductive RedExpr where
  | mean (m out : String)

/-- Modelled from the spec: the built-in message functions.  `fn.copy_u(u,
out)` copies the source node feature `u` into the message `out`;
`fn.u_mul_e(u, e, out)` stores the elementwise product of source node
feature `u` and edge feature `e` into the message `out`.  A user-defined
message function is applied to the edge view directly. -/
def runMsgExpr : MsgExpr → EdgeView → Except LibError MsgDict
  | .copy_u u out, ev =>
    match ev.src u with
    | .ok v => .ok [(out, v)]
    | .error err => .error err
  | .u_mul_e u e out, ev =>
    match ev.src u with
    | .ok a =>
      match ev.data e with
      | .ok b => .ok [(out, Vec.mul a b)]
      | .error err => .error err
    | .error err => .error err
  | .udf f, ev => f ev

/-- Message computation over a list of edges, threading the edge index:
one message dictionary per edge, or the first library error raised. -/
def computeMessagesAux (st : GraphState) (m : MsgExpr) :
    Nat → List (Nat × Nat) → Except LibError (List MsgDict)
  | _, [] => .ok []
  | i, e :: es =>
    match runMsgExpr m (edgeView st i e) with
    | .error err => .error err
    | .ok d =>
      match computeMessagesAux st m (i + 1) es with
      | .error err => .error err
      | .ok ds => .ok (d :: ds)

/-- Modelled from the spec: the message function is evaluated on every
edge of the graph, producing one message per edge. -/
def computeMessages (st : GraphState) (g : Graph) (m : MsgExpr) :
    Except LibError (List MsgDict) :=
  computeMessagesAux st m 0 g.edges

/-- The messages arriving at destination node `v`: the messages of exactly
those edges whose destination is `v` (message passing is directed). -/
def incoming (edges : List (Nat × Nat)) (msgs : List Vec) (v : Nat) : List Vec :=
  ((edges.zip msgs).filter (fun p => p.1.2 == v)).map Prod.snd

/-- Elementwise sum of a list of equal-width feature vectors. -/
def vecSum : List Vec → Vec
  | [] => []
  | [x] => x
  | x :: y :: ys => List.zipWith (· + ·) x (vecSum (y :: ys))

/-- The mean of a list of messages: their elementwise sum divided by their
count (the empty mean is the empty row, as no feature width exists). -/
def meanRow (msgs : List Vec) : Vec :=
  (vecSum msgs).map (fun q => q / (msgs.length : ℚ))

/-- Modelled from the spec: `fn.mean` aggregation.  For each destination
node, the arithmetic mean of all messages arriving at that node. -/
def reduceMean (numDst : Nat) (edges : List (Nat × Nat)) (msgs : List Vec) :
    Tensor :=
  (List.range numDst).map (fun v => meanRow (incoming edges msgs v))

/-- Reading the named entry out of every per-edge message dictionary. -/
def getMsgs (dicts : List MsgDict) (k : String) : Except LibError (List Vec) :=
  match dicts with
  | [] => .ok []
  | d :: ds =>
    match getMsg d k with
    | .error err => .error err
    | .ok v =>
      match getMsgs ds k with
      | .error err => .error err
      | .ok vs => .ok (v :: vs)

/-- Modelled from the spec: running the reduce function over the per-edge
message dictionaries yields the output feature name and its tensor. -/
def runReduce (g : Graph) (dicts : List MsgDict) :
    RedExpr → Except LibError (String × Tensor)
  | .mean mk out =>
    match getMsgs dicts mk with
    | .error err => .error err
    | .ok msgs => .ok (out, reduceMean g.numDstNodes g.edges msgs)

/-- One call site of `g.update_all(message_func, reduce_func)`. -/
structure UpdateAllCall where
  msg : MsgExpr
  red : RedExpr

/-- Modelled from the spec: `g.update_all` performs one full propagation
step — the message function on every edge, then the reduce aggregation at
every destination node, storing the result into `dstdata`. -/
def update_all (g : Graph) (st : GraphState) (c : UpdateAllCall) :
    Except LibError GraphState :=
  match computeMessages st g c.msg with
  | .error err => .error err
  | .ok dicts =>
    match runReduce g dicts c.red with
    | .error err => .error err
    | .ok (out, t) => .ok { st with dstdata := setFeat st.dstdata out t }

/-- Errors observable from the notebook code: a Python `NameError` for an
unbound name, or an error propagated from the library. -/
inductive PyError where
  | nameError (n : String)
  | libError (e : LibError)
deriving DecidableEq

/-- Modelled from the spec: `with g.local_scope():` — mutation of
graph-attached data inside the scope is non-persistent; the state observable
after the block is the state from before it, while the body's return value
(or exception) passes through. -/
def local_scope {E α : Type} (st : GraphState)
    (body : GraphState → Except E (α × GraphState)) : Except E α × GraphState :=
  (match body st with
   | .ok (a, _) => .ok a
   | .error e => .error e, st)

/-- The tensor-valued local variables bound in a method body. -/
abbrev Env := List (String × Tensor)

def lookupEnv : Env → String → Option Tensor
  | [], _ => none
  | (k', t) :: rest, k => if k' = k then some t else lookupEnv rest k

/-- Python name resolution: reading an unbound name raises `NameError`. -/
def loadName (env : Env) (n : String) : Except PyError Tensor :=
  match lookupEnv env n with
  | some t => .ok t
  | none => .error (.nameError n)

/-- Dot product of two vectors. -/
def dot (a b : Vec) : ℚ := (List.zipWith (· * ·) a b).sum

/-- `nn.Linear`: a weight matrix (one row per output feature) and a bias. -/
structure Linear where
  weight : List Vec
  bias : Vec

/-- Applying a linear layer to one row: `W x + b`. -/
def Linear.apply (l : Linear) (x : Vec) : Vec :=
  List.zipWith (fun wr b => dot wr x + b) l.weight l.bias

/-- Applying a linear layer row-wise to a tensor. -/
def Linear.applyT (l : Linear) (t : Tensor) : Tensor := t.map l.apply

/-- `F.relu` on one scalar. -/
def reluQ (q : ℚ) : ℚ := max q 0

/-- `F.relu` applied elementwise to a tensor. -/
def reluT (t : Tensor) : Tensor := t.map (fun row => row.map reluQ)

/-- `torch.cat([a, b], dim=1)`: concatenate two tensors column-wise. -/
def torch_cat_dim1 (a b : Tensor) : Tensor := List.zipWith (· ++ ·) a b

/-- The shapes `nn.Linear(in_feat * 2, out_feat)` gives its parameters. -/
def Linear.wf (l : Linear) (inDim outDim : Nat) : Prop :=
  l.weight.length = outDim ∧ (∀ r ∈ l.weight, r.length = inDim) ∧
    l.bias.length = outDim

/-- The `SAGEConv` module state set up by `__init__` (identical in both
notebook cells): `self.linear = nn.Linear(in_feat * 2, out_feat)`. -/
structure SAGEConv where
  in_feat : Nat
  out_feat : Nat
  linear : Linear

/-- The `update_all` call site in the first `forward`:
`g.update_all(fn.copy_u('h', 'm'), fn.mean('m', 'h_neigh'))`. -/
def update_all_call_1 : UpdateAllCall :=
  ⟨.copy_u "h" "m", .mean "m" "h_neigh"⟩

/-- The `update_all` call site in the second `forward`:
`g.update_all(fn.u_mul_e('h', 'w', 'm'), fn.mean('m', 'h_neigh'))`. -/
def update_all_call_2 : UpdateAllCall :=
  ⟨.u_mul_e "h" "w" "m", .mean "m" "h_neigh"⟩

/-- All `update_all` call sites occurring in the first `forward` body. -/
def forward_update_all_calls_1 : List UpdateAllCall := [update_all_call_1]

/-- All `update_all` call sites occurring in the second `forward` body. -/
def forward_update_all_calls_2 : List UpdateAllCall := [update_all_call_2]

/-- The first `SAGEConv.forward` (cell 4 of the notebook).  Inside
`local_scope` it assigns `g.srcdata['h'] = h`, calls `update_all`, reads
`h_neigh = g.dstdata['h_neigh']`, then evaluates
`torch.cat([h_dst, h_neigh], dim=1)` — where the names `h_dst` and
`h_neigh` are resolved in the environment of tensor-valued locals bound at
that point (`h` and `h_neigh`; nothing binds `h_dst`) — and returns
`F.relu(self.linear(h_total))` paired with the graph state after the call. -/
def SAGEConv.forward (c : SAGEConv) (g : Graph) (st : GraphState)
    (h : Tensor) : Except PyError Tensor × GraphState :=
  local_scope st (fun s =>
    let s1 : GraphState := { s with srcdata := setFeat s.srcdata "h" h }
    match update_all g s1 update_all_call_1 with
    | .error e => .error (.libError e)
    | .ok s2 =>
      match getFeat s2.dstdata "h_neigh" with
      | .error e => .error (.libError e)
      | .ok h_neigh =>
        let env : Env := [("h", h), ("h_neigh", h_neigh)]
        match loadName env "h_dst" with
        | .error e => .error e
        | .ok h_dst =>
          match loadName env "h_neigh" with
          | .error e => .error e
          | .ok hn =>
            let h_total := torch_cat_dim1 h_dst hn
            .ok (reluT (c.linear.applyT h_total), s2))

/-- The second `SAGEConv.forward` (cell 8 of the notebook), parameterized
by the message function passed to `update_all` (the notebook passes
`fn.u_mul_e('h', 'w', 'm')`; cell 10 offers `u_mul_e_udf` as an equivalent).
It first computes `h_dst = h[:g.number_of_dst_nodes()]`, then inside
`local_scope` assigns `g.srcdata['h'] = h` and `g.edata['w'] = w`, calls
`update_all` with `fn.mean('m', 'h_neigh')`, reads `h_neigh`, and returns
`F.relu(self.linear(torch.cat([h_dst, h_neigh], dim=1)))`. -/
def SAGEConv.forwardWith (c : SAGEConv) (msg : MsgExpr) (g : Graph)
    (st : GraphState) (h w : Tensor) : Except PyError Tensor × GraphState :=
  let h_dst := h.take g.number_of_dst_nodes
  local_scope st (fun s =>
    let s1 : GraphState := { s with srcdata := setFeat s.srcdata "h" h }
    let s2 : GraphState := { s1 with edata := setFeat s1.edata "w" w }
    match update_all g s2 ⟨msg, .mean "m" "h_neigh"⟩ with
    | .error e => .error (.libError e)
    | .ok s3 =>
      match getFeat s3.dstdata "h_neigh" with
      | .error e => .error (.libError e)
      | .ok h_neigh =>
        let h_total := torch_cat_dim1 h_dst h_neigh
        .ok (reluT (c.linear.applyT h_total), s3))

/-- The second `SAGEConv.forward` as written in the notebook: the message
function at its `update_all` call site is `fn.u_mul_e('h', 'w', 'm')`. -/
def SAGEConv.forward' (c : SAGEConv) (g : Graph) (st : GraphState)
    (h w : Tensor) : Except PyError Tensor × GraphState :=
  c.forwardWith update_all_call_2.msg g st h w

/-- Cell 10 of the notebook:
`def u_mul_e_udf(edges): return {'m' : edges.src['h'] * edges.data['w']}`. -/
def u_mul_e_udf (edges : EdgeView) : Except LibError MsgDict :=
  match edges.src "h" with
  | .error e => .error e
  | .ok a =>
    match edges.data "w" with
    | .error e => .error e
    | .ok b => .ok [("m", Vec.mul a b)]

/-! ### Helper lemmas -/

theorem lookupFeat_setFeat_same (m : FeatMap) (k : String) (t : Tensor) :
    lookupFeat (setFeat m k t) k = some t := by
  simp [setFeat, lookupFeat]

theorem getFeat_setFeat_same (m : FeatMap) (k : String) (t : Tensor) :
    getFeat (setFeat m k t) k = .ok t := by
  simp [getFeat, lookupFeat_setFeat_same]

theorem computeMessagesAux_congr (st : GraphState) {m1 m2 : MsgExpr}
    (H : ∀ ev, runMsgExpr m1 ev = runMsgExpr m2 ev) :
    ∀ (es : List (Nat × Nat)) (i : Nat),
      computeMessagesAux st m1 i es = computeMessagesAux st m2 i es := by
  intro es
  induction es with
  | nil => intro i; rfl
  | cons e es ih =>
      intro i
      simp only [computeMessagesAux, H, ih]

theorem update_all_congr {m1 m2 : MsgExpr} (g : Graph) (st : GraphState)
    (red : RedExpr) (H : ∀ ev, runMsgExpr m1 ev = runMsgExpr m2 ev) :
    update_all g st ⟨m1, red⟩ = update_all g st ⟨m2, red⟩ := by
  unfold update_all computeMessages
  rw [computeMessagesAux_congr st H]

theorem runMsgExpr_udf_eq_builtin (ev : EdgeView) :
    runMsgExpr (.udf u_mul_e_udf) ev = runMsgExpr (.u_mul_e "h" "w" "m") ev := by
  simp only [runMsgExpr, u_mul_e_udf]
  cases hs : ev.src "h" with
  | error e => rfl
  | ok a =>
    cases hd : ev.data "w" with
    | error e => rfl
    | ok b => rfl

/-- C2: the two `SAGEConv.forward` bodies each contain exactly one call to
the propagation entry point `update_all`, and the two call sites pass
different message functions — `fn.copy_u('h', 'm')` versus
`fn.u_mul_e('h', 'w', 'm')` — with the same reduce function
`fn.mean('m', 'h_neigh')`. -/
theorem two_update_all_call_sites_distinct_message_args :
    forward_update_all_calls_1.length = 1 ∧
    forward_update_all_calls_2.length = 1 ∧
    forward_update_all_calls_1 =
      [⟨MsgExpr.copy_u "h" "m", RedExpr.mean "m" "h_neigh"⟩] ∧
    forward_update_all_calls_2 =
      [⟨MsgExpr.u_mul_e "h" "w" "m", RedExpr.mean "m" "h_neigh"⟩] ∧
    update_all_call_1.msg ≠ update_all_call_2.msg ∧
    update_all_call_1.red = update_all_call_2.red := by
  refine ⟨rfl, rfl, rfl, rfl, ?_, rfl⟩
  simp [update_all_call_1, update_all_call_2]

/-- C4: all mutation of graph-attached data in both `forward` methods
happens inside `local_scope`, so every feature observable on the graph
(`srcdata`, `dstdata`, `edata`) after `forward` returns is the feature
observable before the call. -/
theorem forward_mutations_scoped_non_persistent :
    ∀ (c : SAGEConv) (g : Graph) (st : GraphState) (h w : Tensor)
      (k : String),
      (c.forward g st h).2 = st ∧
      (c.forward' g st h w).2 = st ∧
      lookupFeat (c.forward g st h).2.srcdata k = lookupFeat st.srcdata k ∧
      lookupFeat (c.forward g st h).2.dstdata k = lookupFeat st.dstdata k ∧
      lookupFeat (c.forward g st h).2.edata k = lookupFeat st.edata k ∧
      lookupFeat (c.forward' g st h w).2.srcdata k = lookupFeat st.srcdata k ∧
      lookupFeat (c.forward' g st h w).2.dstdata k = lookupFeat st.dstdata k ∧
      lookupFeat (c.forward' g st h w).2.edata k = lookupFeat st.edata k :=
  fun _ _ _ _ _ _ => ⟨rfl, rfl, rfl, rfl, rfl, rfl, rfl, rfl⟩

/-- C5: the user-defined message function `u_mul_e_udf` is equivalent to
the built-in `fn.u_mul_e('h', 'w', 'm')`: on every edge view it returns
the dictionary with single key `'m'` holding the elementwise product of
the source feature `'h'` and the edge feature `'w'`, and substituting it
for the built-in in the second `forward` yields the same result on every
graph, node feature tensor and edge weight tensor. -/
theorem u_mul_e_udf_equivalent_to_builtin :
    (∀ ev : EdgeView,
      runMsgExpr (.udf u_mul_e_udf) ev =
        runMsgExpr (.u_mul_e "h" "w" "m") ev) ∧
    (∀ (ev : EdgeView) (a b : Vec),
      ev.src "h" = .ok a → ev.data "w" = .ok b →
      u_mul_e_udf ev = .ok [("m", Vec.mul a b)]) ∧
    (∀ (c : SAGEConv) (g : Graph) (st : GraphState) (h w : Tensor),
      c.forwardWith (.udf u_mul_e_udf) g st h w = c.forward' g st h w) := by
  refine ⟨runMsgExpr_udf_eq_builtin, ?_, ?_⟩
  · intro ev a b ha hb
    unfold u_mul_e_udf
    rw [ha, hb]
  · intro c g st h w
    have Hu : ∀ (g2 : Graph) (s2 : GraphState),
        update_all g2 s2 ⟨.udf u_mul_e_udf, .mean "m" "h_neigh"⟩ =
          update_all g2 s2 ⟨.u_mul_e "h" "w" "m", .mean "m" "h_neigh"⟩ :=
      fun g2 s2 => update_all_congr g2 s2 _ runMsgExpr_udf_eq_builtin
    simp only [SAGEConv.forward', SAGEConv.forwardWith, update_all_call_2, Hu]

/-- C5 witness: the equivalence instantiated at a concrete edge view whose
source carries `'h' = [2]` and whose edge data carries `'w' = [3]`. -/
theorem u_mul_e_udf_equivalent_to_builtin_witness :
    u_mul_e_udf
        ⟨fun _ => .ok [2], fun _ => .ok [3], fun _ => .error .indexError⟩ =
      .ok [("m", Vec.mul [2] [3])] :=
  u_mul_e_udf_equivalent_to_builtin.2.1
    ⟨fun _ => .ok [2], fun _ => .ok [3], fun _ => .error .indexError⟩
    [2] [3] rfl rfl

/-- C7: message computation is per-edge and draws only on that edge's
source node attribute `'h'` and edge attribute `'w'`: two edge views that
agree on those two attributes receive equal messages, both under the
built-in `fn.u_mul_e('h', 'w', 'm')` and under `u_mul_e_udf`. -/
theorem message_per_edge_from_local_attributes_only :
    (∀ ev1 ev2 : EdgeView,
      ev1.src "h" = ev2.src "h" → ev1.data "w" = ev2.data "w" →
      runMsgExpr (.u_mul_e "h" "w" "m") ev1 =
        runMsgExpr (.u_mul_e "h" "w" "m") ev2) ∧
    (∀ ev1 ev2 : EdgeView,
      ev1.src "h" = ev2.src "h" → ev1.data "w" = ev2.data "w" →
      u_mul_e_udf ev1 = u_mul_e_udf ev2) := by
  constructor
  · intro ev1 ev2 h1 h2
    simp only [runMsgExpr]
    rw [h1, h2]
  · intro ev1 ev2 h1 h2
    unfold u_mul_e_udf
    rw [h1, h2]

/-- C7 witness: two concrete edge views agreeing on the source feature
`'h'` and the edge feature `'w'` but differing in their destination
feature lookup receive the same message from `u_mul_e_udf`. -/
theorem message_per_edge_from_local_attributes_only_witness :
    u_mul_e_udf ⟨fun _ => .ok [5], fun _ => .ok [7], fun _ => .ok [1]⟩ =
      u_mul_e_udf
        ⟨fun _ => .ok [5], fun _ => .ok [7], fun k => .error (.keyError k)⟩ :=
  message_per_edge_from_local_attributes_only.2
    ⟨fun _ => .ok [5], fun _ => .ok [7], fun _ => .ok [1]⟩
    ⟨fun _ => .ok [5], fun _ => .ok [7], fun k => .error (.keyError k)⟩
    rfl rfl

theorem getRow_ok (t : Tensor) (i : Nat) (hi : i < t.length) :
    getRow t i = .ok t[i] := by
  simp [getRow, List.get?_eq_getElem?, List.getElem?_eq_getElem hi]

theorem computeMessagesAux_copy_u_ok (st : GraphState) (h : Tensor)
    (hs : lookupFeat st.srcdata "h" = some h) :
    ∀ (es : List (Nat × Nat)) (i : Nat), (∀ e ∈ es, e.1 < h.length) →
      ∃ dicts, computeMessagesAux st (.copy_u "h" "m") i es = .ok dicts ∧
        ∀ d ∈ dicts, ∃ v, d = [("m", v)] := by
  intro es
  induction es with
  | nil => exact fun i _ => ⟨[], rfl, by simp⟩
  | cons e es ih =>
    intro i hb
    have he1 : e.1 < h.length := hb e (by simp)
    have hsrc : (edgeView st i e).src "h" = .ok h[e.1] := by
      simp [edgeView, getFeat, hs, getRow_ok h e.1 he1]
    have hrun : runMsgExpr (.copy_u "h" "m") (edgeView st i e) =
        .ok [("m", h[e.1])] := by
      simp [runMsgExpr, hsrc]
    obtain ⟨dicts, hd, hshape⟩ :=
      ih (i + 1) (fun e' he' => hb e' (List.mem_cons_of_mem _ he'))
    refine ⟨[("m", h[e.1])] :: dicts, ?_, ?_⟩
    · unfold computeMessagesAux
      rw [hrun, hd]
    · intro d hd'
      rcases List.mem_cons.mp hd' with h1 | h1
      · exact ⟨h[e.1], h1⟩
      · exact hshape d h1

theorem computeMessagesAux_u_mul_e_ok (st : GraphState) (h w : Tensor)
    (hs : lookupFeat st.srcdata "h" = some h)
    (he : lookupFeat st.edata "w" = some w) :
    ∀ (es : List (Nat × Nat)) (i : Nat), (∀ e ∈ es, e.1 < h.length) →
      i + es.length ≤ w.length →
      ∃ dicts, computeMessagesAux st (.u_mul_e "h" "w" "m") i es = .ok dicts ∧
        ∀ d ∈ dicts, ∃ v, d = [("m", v)] := by
  intro es
  induction es with
  | nil => exact fun i _ _ => ⟨[], rfl, by simp⟩
  | cons e es ih =>
    intro i hb hwlen
    have he1 : e.1 < h.length := hb e (by simp)
    have hi : i < w.length := by simp at hwlen; omega
    have hsrc : (edgeView st i e).src "h" = .ok h[e.1] := by
      simp [edgeView, getFeat, hs, getRow_ok h e.1 he1]
    have hdat : (edgeView st i e).data "w" = .ok w[i] := by
      simp [edgeView, getFeat, he, getRow_ok w i hi]
    have hrun : runMsgExpr (.u_mul_e "h" "w" "m") (edgeView st i e) =
        .ok [("m", Vec.mul h[e.1] w[i])] := by
      simp [runMsgExpr, hsrc, hdat]
    obtain ⟨dicts, hd, hshape⟩ :=
      ih (i + 1) (fun e' he' => hb e' (List.mem_cons_of_mem _ he'))
        (by simp at hwlen ⊢; omega)
    refine ⟨[("m", Vec.mul h[e.1] w[i])] :: dicts, ?_, ?_⟩
    · unfold computeMessagesAux
      rw [hrun, hd]
    · intro d hd'
      rcases List.mem_cons.mp hd' with h1 | h1
      · exact ⟨Vec.mul h[e.1] w[i], h1⟩
      · exact hshape d h1

theorem getMsgs_ok_of_shape :
    ∀ dicts : List MsgDict, (∀ d ∈ dicts, ∃ v, d = [("m", v)]) →
      ∃ msgs, getMsgs dicts "m" = .ok msgs ∧ msgs.length = dicts.length := by
  intro dicts
  induction dicts with
  | nil => exact fun _ => ⟨[], rfl, rfl⟩
  | cons d ds ih =>
    intro hshape
    obtain ⟨v, rfl⟩ := hshape d (by simp)
    obtain ⟨msgs, hm, hlen⟩ :=
      ih (fun d' hd' => hshape d' (List.mem_cons_of_mem _ hd'))
    refine ⟨v :: msgs, ?_, by simp [hlen]⟩
    unfold getMsgs
    have hv : getMsg [("m", v)] "m" = .ok v := rfl
    rw [hv, hm]

theorem getMsgs_ok_length :
    ∀ (dicts : List MsgDict) (k : String) (msgs : List Vec),
      getMsgs dicts k = .ok msgs → msgs.length = dicts.length := by
  intro dicts k
  induction dicts with
  | nil =>
    intro msgs hm
    simp only [getMsgs] at hm
    injection hm with h1
    simp [← h1]
  | cons d ds ih =>
    intro msgs hm
    unfold getMsgs at hm
    cases h1 : getMsg d k with
    | error e => rw [h1] at hm; cases hm
    | ok v =>
      rw [h1] at hm
      cases h2 : getMsgs ds k with
      | error e => rw [h2] at hm; cases hm
      | ok vs =>
        rw [h2] at hm
        injection hm with h3
        subst h3
        simp [ih vs h2]

theorem update_all_mean_ok (g : Graph) (st : GraphState) (msg : MsgExpr)
    (dicts : List MsgDict) (msgs : List Vec)
    (hd : computeMessages st g msg = .ok dicts)
    (hm : getMsgs dicts "m" = .ok msgs) :
    update_all g st ⟨msg, .mean "m" "h_neigh"⟩ =
      .ok ⟨st.srcdata,
        setFeat st.dstdata "h_neigh" (reduceMean g.numDstNodes g.edges msgs),
        st.edata⟩ := by
  simp [update_all, runReduce, hd, hm]

/-- C3: for every graph and input node feature tensor, the first
`SAGEConv.forward` never returns a value: either a library error is
raised first, or — whenever the library calls succeed, in particular for
every well-formed input whose feature tensor covers all edge sources —
evaluation reaches `torch.cat([h_dst, h_neigh], dim=1)` and raises
`NameError` for `h_dst`, which is bound nowhere in the method. -/
theorem first_forward_always_raises_nameError_h_dst :
    (∀ (c : SAGEConv) (g : Graph) (st : GraphState) (h : Tensor),
      ∃ e : PyError, c.forward g st h = (.error e, st)) ∧
    (∀ (c : SAGEConv) (g : Graph) (st : GraphState) (h : Tensor),
      (∀ e ∈ g.edges, e.1 < h.length) →
      c.forward g st h = (.error (.nameError "h_dst"), st)) := by
  have hload : ∀ (h hn : Tensor),
      loadName [("h", h), ("h_neigh", hn)] "h_dst" =
        .error (.nameError "h_dst") := fun _ _ => rfl
  constructor
  · intro c g st h
    cases hu : update_all g ⟨setFeat st.srcdata "h" h, st.dstdata, st.edata⟩
        update_all_call_1 with
    | error e =>
      exact ⟨.libError e, by simp [SAGEConv.forward, local_scope, hu]⟩
    | ok s2 =>
      cases hf : getFeat s2.dstdata "h_neigh" with
      | error e =>
        exact ⟨.libError e, by simp [SAGEConv.forward, local_scope, hu, hf]⟩
      | ok hn =>
        exact ⟨.nameError "h_dst",
          by simp [SAGEConv.forward, local_scope, hu, hf, hload]⟩
  · intro c g st h hb
    have hs : lookupFeat (setFeat st.srcdata "h" h) "h" = some h :=
      lookupFeat_setFeat_same _ _ _
    obtain ⟨dicts, hd, hshape⟩ :=
      computeMessagesAux_copy_u_ok
        ⟨setFeat st.srcdata "h" h, st.dstdata, st.edata⟩ h hs g.edges 0 hb
    obtain ⟨msgs, hm, _⟩ := getMsgs_ok_of_shape dicts hshape
    have hu :=
      update_all_mean_ok g ⟨setFeat st.srcdata "h" h, st.dstdata, st.edata⟩
        (.copy_u "h" "m") dicts msgs hd hm
    have hf :
        getFeat
          (setFeat st.dstdata "h_neigh"
            (reduceMean g.numDstNodes g.edges msgs)) "h_neigh" =
          .ok (reduceMean g.numDstNodes g.edges msgs) :=
      getFeat_setFeat_same _ _ _
    simp [SAGEConv.forward, local_scope, update_all_call_1, hu, hf, hload]

/-- C3 witness: on a concrete graph with two edges and a well-formed
feature tensor, the first `forward` evaluates to the `NameError` for
`h_dst`, leaving the graph state intact. -/
theorem first_forward_always_raises_nameError_h_dst_witness :
    (⟨1, 1, ⟨[[1, 1]], [0]⟩⟩ : SAGEConv).forward ⟨2, 2, [(0, 1), (1, 1)]⟩
        ⟨[], [], []⟩ [[2], [4]] =
      (.error (.nameError "h_dst"), ⟨[], [], []⟩) :=
  first_forward_always_raises_nameError_h_dst.2 _ _ _ _ (by decide)

/-- C6: neither `forward` method nor `u_mul_e_udf` catches, transforms or
extends any error: whatever error `update_all` raises is the error the
caller of `forward` observes, with the persistent graph data unchanged,
and `u_mul_e_udf` passes through every error of its feature lookups. -/
theorem no_error_handling_errors_propagate :
    (∀ (c : SAGEConv) (g : Graph) (st : GraphState) (h : Tensor)
        (e : LibError),
      update_all g ⟨setFeat st.srcdata "h" h, st.dstdata, st.edata⟩
          update_all_call_1 = .error e →
      c.forward g st h = (.error (.libError e), st)) ∧
    (∀ (c : SAGEConv) (g : Graph) (st : GraphState) (h w : Tensor)
        (e : LibError),
      update_all g
          ⟨setFeat st.srcdata "h" h, st.dstdata, setFeat st.edata "w" w⟩
          update_all_call_2 = .error e →
      c.forward' g st h w = (.error (.libError e), st)) ∧
    (∀ (ev : EdgeView) (e : LibError),
      ev.src "h" = .error e → u_mul_e_udf ev = .error e) ∧
    (∀ (ev : EdgeView) (a : Vec) (e : LibError),
      ev.src "h" = .ok a → ev.data "w" = .error e →
      u_mul_e_udf ev = .error e) := by
  refine ⟨?_, ?_, ?_, ?_⟩
  · intro c g st h e hu
    simp [SAGEConv.forward, local_scope, hu]
  · intro c g st h w e hu
    simp only [update_all_call_2] at hu
    simp [SAGEConv.forward', SAGEConv.forwardWith, local_scope,
      update_all_call_2, hu]
  · intro ev e hsrc
    unfold u_mul_e_udf
    rw [hsrc]
  · intro ev a e hsrc hdat
    unfold u_mul_e_udf
    rw [hsrc, hdat]

/-- C6 witness: concrete runs in which the library raises an index error
(an empty feature tensor with a non-empty edge list): both `forward`
methods surface exactly that error and leave the graph state unchanged,
and `u_mul_e_udf` surfaces the errors of its lookups. -/
theorem no_error_handling_errors_propagate_witness :
    (⟨1, 1, ⟨[[1, 1]], [0]⟩⟩ : SAGEConv).forward ⟨1, 1, [(0, 0)]⟩
        ⟨[], [], []⟩ [] =
      (.error (.libError .indexError), ⟨[], [], []⟩) ∧
    (⟨1, 1, ⟨[[1, 1]], [0]⟩⟩ : SAGEConv).forward' ⟨1, 1, [(0, 0)]⟩
        ⟨[], [], []⟩ [] [] =
      (.error (.libError .indexError), ⟨[], [], []⟩) ∧
    u_mul_e_udf
        ⟨fun k => .error (.keyError k), fun _ => .ok [1], fun _ => .ok [1]⟩ =
      .error (.keyError "h") ∧
    u_mul_e_udf
        ⟨fun _ => .ok [1], fun k => .error (.keyError k), fun _ => .ok [1]⟩ =
      .error (.keyError "w") :=
  ⟨no_error_handling_errors_propagate.1 _ _ _ _ _ rfl,
   no_error_handling_errors_propagate.2.1 _ _ _ _ _ _ rfl,
   no_error_handling_errors_propagate.2.2.1 _ _ rfl,
   no_error_handling_errors_propagate.2.2.2 _ [1] _ rfl rfl⟩

theorem getD_range_map {α : Type} (f : Nat → α) (n v : Nat) (d : α)
    (hv : v < n) : ((List.range n).map f).getD v d = f v := by
  have h1 : v < ((List.range n).map f).length := by simpa
  rw [List.getD_eq_getElem _ _ h1]
  simp

theorem computeMessagesAux_ok_spec (st : GraphState) (m : MsgExpr) :
    ∀ (es : List (Nat × Nat)) (i : Nat) (dicts : List MsgDict),
      computeMessagesAux st m i es = .ok dicts →
      dicts.length = es.length ∧
      ∀ j, j < es.length →
        runMsgExpr m (edgeView st (i + j) (es.getD j (0, 0))) =
          .ok (dicts.getD j []) := by
  intro es
  induction es with
  | nil =>
    intro i dicts hok
    simp only [computeMessagesAux] at hok
    injection hok with h1
    subst h1
    exact ⟨rfl, fun j hj => absurd hj (by simp)⟩
  | cons e es ih =>
    intro i dicts hok
    unfold computeMessagesAux at hok
    cases hr : runMsgExpr m (edgeView st i e) with
    | error err => rw [hr] at hok; cases hok
    | ok d =>
      rw [hr] at hok
      cases ha : computeMessagesAux st m (i + 1) es with
      | error err => rw [ha] at hok; cases hok
      | ok ds =>
        rw [ha] at hok
        injection hok with h1
        subst h1
        obtain ⟨hlen, hspec⟩ := ih (i + 1) ds ha
        refine ⟨by simp [hlen], ?_⟩
        intro j hj
        cases j with
        | zero => simpa using hr
        | succ j' =>
          have hj' : j' < es.length := by simpa using hj
          have h2 := hspec j' hj'
          have h3 : i + (j' + 1) = i + 1 + j' := by omega
          simpa [h3] using h2

/-- C8: a single `update_all` call is one full propagation step: when it
returns, the message function was evaluated successfully on every edge of
the graph (one message dictionary per edge, in edge order), and the mean
aggregation was applied at every destination node, whose row in the
stored output tensor is the mean of its incoming messages. -/
theorem update_all_one_full_propagation_step :
    ∀ (g : Graph) (st : GraphState) (c : UpdateAllCall) (st' : GraphState),
      update_all g st c = .ok st' →
      ∃ dicts : List MsgDict,
        computeMessages st g c.msg = .ok dicts ∧
        dicts.length = g.edges.length ∧
        (∀ j, j < g.edges.length →
          runMsgExpr c.msg (edgeView st j (g.edges.getD j (0, 0))) =
            .ok (dicts.getD j [])) ∧
        ∃ (mk out : String) (msgs : List Vec),
          c.red = .mean mk out ∧
          getMsgs dicts mk = .ok msgs ∧
          msgs.length = g.edges.length ∧
          lookupFeat st'.dstdata out =
            some (reduceMean g.numDstNodes g.edges msgs) ∧
          (reduceMean g.numDstNodes g.edges msgs).length = g.numDstNodes ∧
          ∀ v, v < g.numDstNodes →
            (reduceMean g.numDstNodes g.edges msgs).getD v [] =
              meanRow (incoming g.edges msgs v) := by
  intro g st c st' hok
  obtain ⟨msg, red⟩ := c
  obtain ⟨mk, out⟩ := red
  simp only [update_all] at hok
  cases hcm : computeMessages st g msg with
  | error err => rw [hcm] at hok; cases hok
  | ok dicts =>
    rw [hcm] at hok
    cases hgm : getMsgs dicts mk with
    | error err =>
      simp only [runReduce, hgm] at hok
      cases hok
    | ok msgs =>
      simp only [runReduce, hgm] at hok
      injection hok with hok'
      subst hok'
      obtain ⟨hlen, hspec⟩ :=
        computeMessagesAux_ok_spec st msg g.edges 0 dicts hcm
      refine ⟨dicts, rfl, hlen, ?_, mk, out, msgs, rfl, hgm, ?_, ?_, ?_, ?_⟩
      · intro j hj
        simpa using hspec j hj
      · rw [getMsgs_ok_length dicts mk msgs hgm, hlen]
      · exact lookupFeat_setFeat_same _ _ _
      · simp [reduceMean]
      · intro v hv
        unfold reduceMean
        exact getD_range_map _ _ _ _ hv

/-- C8 witness: the propagation-step theorem instantiated on a concrete
two-edge graph whose node features are `[[2], [4]]`. -/
theorem update_all_one_full_propagation_step_witness :
    ∃ dicts : List MsgDict,
      computeMessages ⟨[("h", [[2], [4]])], [], []⟩ ⟨2, 2, [(0, 1), (1, 1)]⟩
          update_all_call_1.msg = .ok dicts ∧
      dicts.length = 2 ∧
      (∀ j, j < 2 →
        runMsgExpr update_all_call_1.msg
            (edgeView ⟨[("h", [[2], [4]])], [], []⟩ j
              ([(0, 1), (1, 1)].getD j (0, 0))) =
          .ok (dicts.getD j [])) ∧
      ∃ (mk out : String) (msgs : List Vec),
        update_all_call_1.red = .mean mk out ∧
        getMsgs dicts mk = .ok msgs ∧
        msgs.length = 2 ∧
        lookupFeat [("h_neigh", reduceMean 2 [(0, 1), (1, 1)] [[2], [4]])]
            out = some (reduceMean 2 [(0, 1), (1, 1)] msgs) ∧
        (reduceMean 2 [(0, 1), (1, 1)] msgs).length = 2 ∧
        ∀ v, v < 2 →
          (reduceMean 2 [(0, 1), (1, 1)] msgs).getD v [] =
            meanRow (incoming [(0, 1), (1, 1)] msgs v) :=
  update_all_one_full_propagation_step ⟨2, 2, [(0, 1), (1, 1)]⟩
    ⟨[("h", [[2], [4]])], [], []⟩ update_all_call_1
    ⟨[("h", [[2], [4]])],
      [("h_neigh", reduceMean 2 [(0, 1), (1, 1)] [[2], [4]])], []⟩ rfl

theorem getD_zipWith_add :
    ∀ (a b : Vec) (j : Nat), j < a.length → j < b.length →
      (List.zipWith (· + ·) a b).getD j 0 = a.getD j 0 + b.getD j 0 := by
  intro a b j ha hb
  have h1 : j < (List.zipWith (· + ·) a b).length := by
    simp [List.length_zipWith]
    omega
  rw [List.getD_eq_getElem _ _ h1, List.getD_eq_getElem _ _ ha,
    List.getD_eq_getElem _ _ hb]
  simp [List.getElem_zipWith]

theorem vecSum_length (d : Nat) :
    ∀ ms : List Vec, ms ≠ [] → (∀ m ∈ ms, m.length = d) →
      (vecSum ms).length = d := by
  intro ms
  induction ms with
  | nil => exact fun hne _ => absurd rfl hne
  | cons x ms ih =>
    intro _ hw
    cases ms with
    | nil => simpa [vecSum] using hw x (by simp)
    | cons y ys =>
      have hx : x.length = d := hw x (by simp)
      have hrest : (vecSum (y :: ys)).length = d :=
        ih (by simp) (fun m hm => hw m (List.mem_cons_of_mem _ hm))
      simp only [vecSum, List.length_zipWith, hx, hrest, Nat.min_self]

theorem vecSum_getD (d j : Nat) (hj : j < d) :
    ∀ ms : List Vec, (∀ m ∈ ms, m.length = d) →
      (vecSum ms).getD j 0 = (ms.map (fun m => m.getD j 0)).sum := by
  intro ms
  induction ms with
  | nil => simp [vecSum]
  | cons x ms ih =>
    intro hw
    cases ms with
    | nil => simp [vecSum]
    | cons y ys =>
      have hx : x.length = d := hw x (by simp)
      have hrest : (vecSum (y :: ys)).length = d :=
        vecSum_length d _ (by simp) (fun m hm => hw m (List.mem_cons_of_mem _ hm))
      have h1 : (vecSum (x :: y :: ys)) = List.zipWith (· + ·) x (vecSum (y :: ys)) := rfl
      rw [h1, getD_zipWith_add x (vecSum (y :: ys)) j (by omega) (by omega),
        ih (fun m hm => hw m (List.mem_cons_of_mem _ hm))]
      simp

theorem mem_incoming_mem_msgs {edges : List (Nat × Nat)} {msgs : List Vec}
    {v : Nat} {m : Vec} (hm : m ∈ incoming edges msgs v) : m ∈ msgs := by
  unfold incoming at hm
  obtain ⟨p, hp, rfl⟩ := List.mem_map.mp hm
  exact (List.of_mem_zip (List.mem_filter.mp hp).1).2

/-- C1: the reduce function `fn.mean('m', 'h_neigh')` used by both
`SAGEConv.forward` methods stores, for each destination node, the
arithmetic mean of all messages `'m'` arriving at it (directed: only
edges whose destination is that node contribute), and `update_all` with
that reduce function stores this tensor as the new feature `'h_neigh'`
in `dstdata`. -/
theorem mean_reduce_stores_arithmetic_mean :
    (∀ (numDst : Nat) (edges : List (Nat × Nat)) (msgs : List Vec)
        (v j d : Nat),
      (∀ m ∈ msgs, m.length = d) → v < numDst → j < d →
      incoming edges msgs v ≠ [] →
      ((reduceMean numDst edges msgs).getD v []).getD j 0 =
        ((incoming edges msgs v).map (fun m => m.getD j 0)).sum /
          ((incoming edges msgs v).length : ℚ)) ∧
    (∀ (g : Graph) (st : GraphState) (msg : MsgExpr)
        (dicts : List MsgDict) (msgs : List Vec),
      computeMessages st g msg = .ok dicts →
      getMsgs dicts "m" = .ok msgs →
      ∃ st', update_all g st ⟨msg, .mean "m" "h_neigh"⟩ = .ok st' ∧
        lookupFeat st'.dstdata "h_neigh" =
          some (reduceMean g.numDstNodes g.edges msgs)) := by
  constructor
  · intro numDst edges msgs v j d hw hv hj hne
    have h0 : (reduceMean numDst edges msgs).getD v [] =
        meanRow (incoming edges msgs v) := by
      unfold reduceMean
      exact getD_range_map _ _ _ _ hv
    rw [h0]
    have hwd : ∀ m ∈ incoming edges msgs v, m.length = d :=
      fun m hm => hw m (mem_incoming_mem_msgs hm)
    have hlen : (vecSum (incoming edges msgs v)).length = d :=
      vecSum_length d _ hne hwd
    unfold meanRow
    have hjlt : j < ((vecSum (incoming edges msgs v)).map
        (fun q => q / ((incoming edges msgs v).length : ℚ))).length := by
      simpa [hlen]
    rw [List.getD_eq_getElem _ _ hjlt, List.getElem_map]
    have hj2 : j < (vecSum (incoming edges msgs v)).length := by omega
    rw [← List.getD_eq_getElem (vecSum (incoming edges msgs v)) 0 hj2]
    rw [vecSum_getD d j hj _ hwd]
  · intro g st msg dicts msgs hcm hgm
    exact ⟨_, update_all_mean_ok g st msg dicts msgs hcm hgm,
      lookupFeat_setFeat_same _ _ _⟩

/-- C1 witness: a concrete graph in which node `0` receives the two
messages `[2]` and `[4]`; its stored `'h_neigh'` row is their mean, and
the concrete `update_all` call stores the mean tensor under `'h_neigh'`. -/
theorem mean_reduce_stores_arithmetic_mean_witness :
    (((reduceMean 1 [(0, 0), (1, 0)] [[2], [4]]).getD 0 []).getD 0 0 =
      ((incoming [(0, 0), (1, 0)] [[2], [4]] 0).map
          (fun m => m.getD 0 0)).sum /
        ((incoming [(0, 0), (1, 0)] [[2], [4]] 0).length : ℚ)) ∧
    (∃ st', update_all ⟨2, 1, [(0, 0), (1, 0)]⟩ ⟨[("h", [[2], [4]])], [], []⟩
        ⟨MsgExpr.copy_u "h" "m", RedExpr.mean "m" "h_neigh"⟩ = .ok st' ∧
      lookupFeat st'.dstdata "h_neigh" =
        some (reduceMean 1 [(0, 0), (1, 0)] [[2], [4]])) :=
  ⟨mean_reduce_stores_arithmetic_mean.1 1 [(0, 0), (1, 0)] [[2], [4]] 0 0 1
      (by decide) (by decide) (by decide) (by decide),
   mean_reduce_stores_arithmetic_mean.2 ⟨2, 1, [(0, 0), (1, 0)]⟩
      ⟨[("h", [[2], [4]])], [], []⟩ (MsgExpr.copy_u "h" "m")
      [[("m", [2])], [("m", [4])]] [[2], [4]] rfl rfl⟩

/-- C9: on any graph with `n` destination nodes, node features covering
at least `n` rows, and edge weights covering all edges, the second
`SAGEConv.forward` succeeds and returns a tensor with `n` rows of width
`out_feat`, every entry of which is nonnegative (the result of `F.relu`). -/
theorem second_forward_output_shape_and_nonneg :
    ∀ (c : SAGEConv) (g : Graph) (st : GraphState) (h w : Tensor),
      c.linear.weight.length = c.out_feat →
      c.linear.bias.length = c.out_feat →
      g.numDstNodes ≤ h.length →
      (∀ e ∈ g.edges, e.1 < h.length) →
      g.edges.length ≤ w.length →
      ∃ t, (c.forward' g st h w).1 = .ok t ∧
        t.length = g.numDstNodes ∧
        ∀ row ∈ t, row.length = c.out_feat ∧ ∀ x ∈ row, 0 ≤ x := by
  intro c g st h w hwl hbl hnh hb hwlen
  have hs : lookupFeat (setFeat st.srcdata "h" h) "h" = some h :=
    lookupFeat_setFeat_same _ _ _
  have he : lookupFeat (setFeat st.edata "w" w) "w" = some w :=
    lookupFeat_setFeat_same _ _ _
  obtain ⟨dicts, hd, hshape⟩ :=
    computeMessagesAux_u_mul_e_ok
      ⟨setFeat st.srcdata "h" h, st.dstdata, setFeat st.edata "w" w⟩ h w hs he
      g.edges 0 hb (by omega)
  obtain ⟨msgs, hm, _⟩ := getMsgs_ok_of_shape dicts hshape
  have hu :=
    update_all_mean_ok g
      ⟨setFeat st.srcdata "h" h, st.dstdata, setFeat st.edata "w" w⟩
      (.u_mul_e "h" "w" "m") dicts msgs hd hm
  have hf :
      getFeat
        (setFeat st.dstdata "h_neigh"
          (reduceMean g.numDstNodes g.edges msgs)) "h_neigh" =
        .ok (reduceMean g.numDstNodes g.edges msgs) :=
    getFeat_setFeat_same _ _ _
  refine ⟨reluT (c.linear.applyT (torch_cat_dim1
      (h.take g.number_of_dst_nodes)
      (reduceMean g.numDstNodes g.edges msgs))), ?_, ?_, ?_⟩
  · simp [SAGEConv.forward', SAGEConv.forwardWith, local_scope,
      update_all_call_2, hu, hf]
  · simp only [reluT, Linear.applyT, torch_cat_dim1, List.length_map,
      List.length_zipWith, List.length_take, reduceMean,
      List.length_range, Graph.number_of_dst_nodes]
    omega
  · intro row hrow
    obtain ⟨r1, hr1, rfl⟩ := List.mem_map.mp hrow
    obtain ⟨x, hx, rfl⟩ := List.mem_map.mp hr1
    constructor
    · simp [Linear.apply, List.length_zipWith, hwl, hbl]
    · intro q hq
      obtain ⟨q0, hq0, rfl⟩ := List.mem_map.mp hq
      exact le_max_right _ _

/-- C9 witness: a concrete two-node graph with concrete features and
weights on which the second `forward` returns a `2 × 1` tensor of
nonnegative entries. -/
theorem second_forward_output_shape_and_nonneg_witness :
    ∃ t, ((⟨1, 1, ⟨[[1, 1]], [0]⟩⟩ : SAGEConv).forward'
        ⟨2, 2, [(0, 1), (1, 1)]⟩ ⟨[], [], []⟩ [[2], [4]] [[3], [5]]).1 =
      .ok t ∧
      t.length = 2 ∧
      ∀ row ∈ t, row.length = 1 ∧ ∀ x ∈ row, 0 ≤ x :=
  second_forward_output_shape_and_nonneg _ _ _ _ _ rfl rfl (by decide)
    (by decide) (by decide)
